import Mathlib

/-!
Verification of the nearest-biome search engine of wurstmineberg/abr
(src/main.rs) against its natural-language specification.

Embedding conventions:
- Rust i32 values are modelled as unbounded Int. The program compiles with
  overflow checks in debug profile (arithmetic overflow panics rather than
  wrapping), so the claims concern the non-overflowing executions, where i32
  arithmetic and Int arithmetic coincide. The bit shifts of the source are
  arithmetic shifts on i32: x << 9 is x * 512, x >> 9 is floor division by
  512 (Int.fdiv), and (x as usize) % 32 is x.emod 32.
- mcanvil::Biome is an external closed enumeration carrying a canonical
  textual name; it is modelled as a value wrapping that name.
- HashMap<Biome, [i32; 2]> is modelled as an association list with distinct
  keys; insert replaces the first (only) occurrence of the key in place.
- for loops become List.foldl over the iteration sequence in source order;
  the rayon parallel iterators of the source have purely functional bodies
  whose results are combined exactly as the sequential fold does.
-/

namespace Abr

/-- A block or region coordinate pair [x, z] of the source ([i32; 2]). -/
abbrev Coord := Int × Int

/-- A Rust iterator 0..n over i32, as a list of Int. -/
def intRange (n : Nat) : List Int :=
  (List.range n).map (Nat.cast : Nat → Int)

theorem mem_intRange {n : Nat} {x : Int} : x ∈ intRange n ↔ 0 ≤ x ∧ x < (n : Int) := by
  simp only [intRange, List.mem_map, List.mem_range]
  constructor
  · rintro ⟨a, ha, rfl⟩
    omega
  · rintro ⟨h0, hn⟩
    exact ⟨x.toNat, by omega, by omega⟩

theorem intRange_length (n : Nat) : (intRange n).length = n := by
  simp only [intRange, List.length_map, List.length_range]

theorem intRange_nodup (n : Nat) : (intRange n).Nodup :=
  List.Nodup.map (fun a b hab => by omega) (List.nodup_range n)

/-- Source src/main.rs lines 319-321: taxicab_distance returns
(x2 - x1).abs() as u32 + (z2 - z1).abs() as u32. -/
def taxicab_distance (a b : Coord) : Nat :=
  (b.1 - a.1).natAbs + (b.2 - a.2).natAbs

/-- Source src/main.rs lines 312-317: coords_at_distance chains the four
diagonal edges of the diamond, each edge enumerating d in 0..distance. A Rust
range 0..distance over i32 is empty when distance <= 0, hence intRange of
distance.toNat. -/
def coords_at_distance (c : Coord) (distance : Int) : List Coord :=
  ((intRange distance.toNat).map fun d => (c.1 + d, c.2 - distance + d)) ++
  ((intRange distance.toNat).map fun d => (c.1 + distance - d, c.2 + d)) ++
  ((intRange distance.toNat).map fun d => (c.1 - d, c.2 + distance - d)) ++
  ((intRange distance.toNat).map fun d => (c.1 - distance + d, c.2 - d))

theorem mem_edge {f : Int → Coord} {n : Nat} {p : Coord} :
    p ∈ (intRange n).map f ↔ ∃ d : Int, (0 ≤ d ∧ d < (n : Int)) ∧ p = f d := by
  simp only [List.mem_map]
  constructor
  · rintro ⟨d, hd, rfl⟩
    exact ⟨d, mem_intRange.mp hd, rfl⟩
  · rintro ⟨d, hd, rfl⟩
    exact ⟨d, mem_intRange.mpr hd, rfl⟩

theorem mem_coords_at_distance {c : Coord} {distance : Int} {p : Coord} :
    p ∈ coords_at_distance c distance ↔
      (∃ d : Int, (0 ≤ d ∧ d < (distance.toNat : Int)) ∧ p = (c.1 + d, c.2 - distance + d)) ∨
      (∃ d : Int, (0 ≤ d ∧ d < (distance.toNat : Int)) ∧ p = (c.1 + distance - d, c.2 + d)) ∨
      (∃ d : Int, (0 ≤ d ∧ d < (distance.toNat : Int)) ∧ p = (c.1 - d, c.2 + distance - d)) ∨
      (∃ d : Int, (0 ≤ d ∧ d < (distance.toNat : Int)) ∧ p = (c.1 - distance + d, c.2 - d)) := by
  simp only [coords_at_distance, List.mem_append, mem_edge]
  rw [or_assoc, or_assoc]

theorem coords_at_distance_length (c : Coord) (distance : Int) :
    (coords_at_distance c distance).length = 4 * distance.toNat := by
  simp only [coords_at_distance, List.length_append, List.length_map, intRange_length]
  omega

theorem taxicab_of_mem_coords {c : Coord} {distance : Int} {p : Coord}
    (h1 : 1 ≤ distance) (hp : p ∈ coords_at_distance c distance) :
    (taxicab_distance c p : Int) = distance := by
  rw [mem_coords_at_distance] at hp
  obtain ⟨cx, cz⟩ := c
  rcases hp with ⟨d, hd, rfl⟩ | ⟨d, hd, rfl⟩ | ⟨d, hd, rfl⟩ | ⟨d, hd, rfl⟩ <;>
    simp only [taxicab_distance] <;> omega

theorem mem_coords_of_taxicab {c : Coord} {distance : Int} {p : Coord}
    (h1 : 1 ≤ distance) (hp : (taxicab_distance c p : Int) = distance) :
    p ∈ coords_at_distance c distance := by
  rw [mem_coords_at_distance]
  obtain ⟨cx, cz⟩ := c
  obtain ⟨px, pz⟩ := p
  simp only [taxicab_distance] at hp
  rcases le_or_lt 0 (px - cx) with hx | hx
  · rcases lt_or_le (pz - cz) 0 with hz | hz
    · -- edge 1: dx >= 0, dz < 0
      refine Or.inl ⟨px - cx, by omega, ?_⟩
      rw [Prod.mk.injEq]
      omega
    · rcases lt_or_le 0 (px - cx) with hx0 | hx0
      · -- edge 2: dx > 0, dz >= 0
        refine Or.inr (Or.inl ⟨pz - cz, by omega, ?_⟩)
        rw [Prod.mk.injEq]
        omega
      · -- dx = 0, dz > 0 since the distance is at least 1: edge 3
        refine Or.inr (Or.inr (Or.inl ⟨cx - px, by omega, ?_⟩))
        rw [Prod.mk.injEq]
        omega
  · rcases lt_or_le 0 (pz - cz) with hz | hz
    · -- edge 3: dx <= 0, dz > 0
      refine Or.inr (Or.inr (Or.inl ⟨cx - px, by omega, ?_⟩))
      rw [Prod.mk.injEq]
      omega
    · -- edge 4: dx < 0, dz <= 0
      refine Or.inr (Or.inr (Or.inr ⟨cz - pz, by omega, ?_⟩))
      rw [Prod.mk.injEq]
      omega

theorem coords_at_distance_nodup (c : Coord) (distance : Int) (h1 : 1 ≤ distance) :
    (coords_at_distance c distance).Nodup := by
  obtain ⟨cx, cz⟩ := c
  have hn : (1 : Int) ≤ (distance.toNat : Int) := by omega
  have hinj1 : Function.Injective (fun d : Int => ((cx + d, cz - distance + d) : Coord)) := by
    intro a b hab
    rw [Prod.mk.injEq] at hab
    omega
  have hinj2 : Function.Injective (fun d : Int => ((cx + distance - d, cz + d) : Coord)) := by
    intro a b hab
    rw [Prod.mk.injEq] at hab
    omega
  have hinj3 : Function.Injective (fun d : Int => ((cx - d, cz + distance - d) : Coord)) := by
    intro a b hab
    rw [Prod.mk.injEq] at hab
    omega
  have hinj4 : Function.Injective (fun d : Int => ((cx - distance + d, cz - d) : Coord)) := by
    intro a b hab
    rw [Prod.mk.injEq] at hab
    omega
  have sgn1 : ∀ p : Coord,
      p ∈ (intRange distance.toNat).map (fun d : Int => ((cx + d, cz - distance + d) : Coord)) →
      0 ≤ p.1 - cx ∧ p.2 - cz < 0 := by
    intro p hp
    obtain ⟨d, hd, rfl⟩ := mem_edge.mp hp
    constructor <;> simp only <;> omega
  have sgn2 : ∀ p : Coord,
      p ∈ (intRange distance.toNat).map (fun d : Int => ((cx + distance - d, cz + d) : Coord)) →
      0 < p.1 - cx ∧ 0 ≤ p.2 - cz := by
    intro p hp
    obtain ⟨d, hd, rfl⟩ := mem_edge.mp hp
    constructor <;> simp only <;> omega
  have sgn3 : ∀ p : Coord,
      p ∈ (intRange distance.toNat).map (fun d : Int => ((cx - d, cz + distance - d) : Coord)) →
      p.1 - cx ≤ 0 ∧ 0 < p.2 - cz := by
    intro p hp
    obtain ⟨d, hd, rfl⟩ := mem_edge.mp hp
    constructor <;> simp only <;> omega
  have sgn4 : ∀ p : Coord,
      p ∈ (intRange distance.toNat).map (fun d : Int => ((cx - distance + d, cz - d) : Coord)) →
      p.1 - cx < 0 ∧ p.2 - cz ≤ 0 := by
    intro p hp
    obtain ⟨d, hd, rfl⟩ := mem_edge.mp hp
    constructor <;> simp only <;> omega
  simp only [coords_at_distance, List.append_assoc]
  rw [List.nodup_append]
  refine ⟨List.Nodup.map hinj1 (intRange_nodup _), ?_, ?_⟩
  · rw [List.nodup_append]
    refine ⟨List.Nodup.map hinj2 (intRange_nodup _), ?_, ?_⟩
    · rw [List.nodup_append]
      refine ⟨List.Nodup.map hinj3 (intRange_nodup _),
        List.Nodup.map hinj4 (intRange_nodup _), ?_⟩
      intro p hp3 hp4
      have h3 := sgn3 p hp3
      have h4 := sgn4 p hp4
      omega
    · intro p hp2 hrest
      have h2 := sgn2 p hp2
      rcases List.mem_append.mp hrest with hp3 | hp4
      · have h3 := sgn3 p hp3
        omega
      · have h4 := sgn4 p hp4
        omega
  · intro p hp1 hrest
    have h1a := sgn1 p hp1
    rcases List.mem_append.mp hrest with hp2 | hrest2
    · have h2 := sgn2 p hp2
      omega
    · rcases List.mem_append.mp hrest2 with hp3 | hp4
      · have h3 := sgn3 p hp3
        omega
      · have h4 := sgn4 p hp4
        omega

/-- C9: taxicab_distance returns the non-negative integer |x2-x1| + |z2-z1|;
it is symmetric, zero exactly on equal coordinates, and satisfies the
triangle inequality. -/
theorem c9_taxicab_metric (a b c : Coord) :
    (taxicab_distance a b : Int) = |b.1 - a.1| + |b.2 - a.2| ∧
    taxicab_distance a b = taxicab_distance b a ∧
    (taxicab_distance a b = 0 ↔ a = b) ∧
    taxicab_distance a c ≤ taxicab_distance a b + taxicab_distance b c := by
  obtain ⟨ax, az⟩ := a
  obtain ⟨bx, bz⟩ := b
  obtain ⟨cx, cz⟩ := c
  refine ⟨?_, ?_, ?_, ?_⟩
  · simp only [taxicab_distance, Int.abs_eq_natAbs]
    push_cast
    ring
  · simp only [taxicab_distance]
    omega
  · simp only [taxicab_distance, Prod.mk.injEq]
    omega
  · simp only [taxicab_distance]
    omega

/-- C2: for every center c and every distance d >= 1, coords_at_distance
yields exactly 4*d coordinates, pairwise distinct, each at taxicab distance
exactly d from c, and every coordinate at taxicab distance d from c occurs
in the list (full perimeter coverage, no duplicates, no gaps). -/
theorem c2_ring_exact (c : Coord) (d : Int) (p q : Coord) (h1 : 1 ≤ d) :
    ((coords_at_distance c d).length : Int) = 4 * d ∧
    (coords_at_distance c d).Nodup ∧
    (p ∈ coords_at_distance c d → (taxicab_distance c p : Int) = d) ∧
    ((taxicab_distance c q : Int) = d → q ∈ coords_at_distance c d) := by
  refine ⟨?_, coords_at_distance_nodup c d h1,
    fun hp => taxicab_of_mem_coords h1 hp, fun hq => mem_coords_of_taxicab h1 hq⟩
  rw [coords_at_distance_length]
  omega

/-- Witness for c2_ring_exact at c = (3, -2), d = 2, p = (4, -1), q = (3, 0). -/
theorem c2_ring_exact_witness :
    (1 ≤ (2 : Int)) ∧
    (((coords_at_distance (3, -2) 2).length : Int) = 4 * 2 ∧
     (coords_at_distance (3, -2) 2).Nodup ∧
     ((4, -1) ∈ coords_at_distance (3, -2) 2 → (taxicab_distance (3, -2) (4, -1) : Int) = 2) ∧
     ((taxicab_distance (3, -2) (3, 0) : Int) = 2 → (3, 0) ∈ coords_at_distance (3, -2) 2)) :=
  ⟨by decide, c2_ring_exact (3, -2) 2 (4, -1) (3, 0) (by decide)⟩

/-! ## Biomes and nearest maps -/

/-- Modelled from the spec: mcanvil::Biome is an external closed enumeration of
terrain categories whose canonical textual name (Display / FromStr) is used at
the oracle boundary and in the final sort; it is modelled as a value carrying
that name. -/
structure Biome where
  name : String
deriving DecidableEq

/-- Source src/main.rs lines 33-76: the fixed tracked set of 42 biomes. -/
def ADV_TIME_BIOMES : List Biome :=
  [⟨"Badlands"⟩, ⟨"BadlandsPlateau"⟩, ⟨"BambooJungle"⟩, ⟨"BambooJungleHills"⟩,
   ⟨"Beach"⟩, ⟨"BirchForest"⟩, ⟨"BirchForestHills"⟩, ⟨"ColdOcean"⟩,
   ⟨"DarkForest"⟩, ⟨"DeepColdOcean"⟩, ⟨"DeepFrozenOcean"⟩, ⟨"DeepLukewarmOcean"⟩,
   ⟨"Desert"⟩, ⟨"DesertHills"⟩, ⟨"Forest"⟩, ⟨"FrozenRiver"⟩,
   ⟨"GiantTreeTaiga"⟩, ⟨"GiantTreeTaigaHills"⟩, ⟨"Jungle"⟩, ⟨"JungleEdge"⟩,
   ⟨"JungleHills"⟩, ⟨"LukewarmOcean"⟩, ⟨"Mountains"⟩, ⟨"MushroomFieldShore"⟩,
   ⟨"MushroomFields"⟩, ⟨"Plains"⟩, ⟨"River"⟩, ⟨"Savanna"⟩,
   ⟨"SavannaPlateau"⟩, ⟨"SnowyBeach"⟩, ⟨"SnowyMountains"⟩, ⟨"SnowyTaiga"⟩,
   ⟨"SnowyTaigaHills"⟩, ⟨"SnowyTundra"⟩, ⟨"StoneShore"⟩, ⟨"Swamp"⟩,
   ⟨"Taiga"⟩, ⟨"TaigaHills"⟩, ⟨"WarmOcean"⟩, ⟨"WoodedBadlandsPlateau"⟩,
   ⟨"WoodedHills"⟩, ⟨"WoodedMountains"⟩]

/-- HashMap<Biome, [i32; 2]> modelled as an association list with distinct keys. -/
abbrev NearestMap := List (Biome × Coord)

/-- HashMap lookup. -/
def lookupBiome : NearestMap → Biome → Option Coord
  | [], _ => none
  | (b0, c0) :: rest, b => if b0 = b then some c0 else lookupBiome rest b

/-- HashMap insert: replace the entry for the key, or add it. -/
def setBiome : NearestMap → Biome → Coord → NearestMap
  | [], b, c => [(b, c)]
  | (b0, c0) :: rest, b, c =>
    if b0 = b then (b, c) :: rest else (b0, c0) :: setBiome rest b c

/-- Source src/main.rs line 192 (also line 156 after the tracked-set test):
the entry/or_insert update: a missing key is inserted with the incoming
coordinate; a present key is replaced only when the incoming coordinate is
strictly closer to the anchor. -/
def updateNearest (anchor : Coord) (m : NearestMap) (e : Biome × Coord) : NearestMap :=
  match lookupBiome m e.1 with
  | none => setBiome m e.1 e.2
  | some c0 =>
    if taxicab_distance anchor e.2 < taxicab_distance anchor c0 then
      setBiome m e.1 e.2
    else
      m

/-- Source src/main.rs lines 156-158: the controller update; the short-circuit
ADV_TIME_BIOMES.contains(&biome) test guards the or_insert, so untracked
entries leave the map untouched. The tracked set is a parameter (the source
fixes it to ADV_TIME_BIOMES). -/
def updateTracked (anchor : Coord) (tracked : List Biome) (m : NearestMap)
    (e : Biome × Coord) : NearestMap :=
  if e.1 ∈ tracked then updateNearest anchor m e else m

/-- Folding the per-entry update of line 192 over a list of entries: the merge
of one partial nearest map into an accumulated one, as the claim describes it
(keep, for each key in either map, whichever coordinate is strictly closer to
the anchor; ties keep the existing entry). -/
def mergeNearest (anchor : Coord) (m : NearestMap) (entries : List (Biome × Coord)) :
    NearestMap :=
  entries.foldl (updateNearest anchor) m

/-- Source src/main.rs lines 155-159: merging one region's nearest map into the
running map, keeping only tracked biomes. -/
def mergeTracked (anchor : Coord) (tracked : List Biome) (m : NearestMap)
    (entries : List (Biome × Coord)) : NearestMap :=
  entries.foldl (updateTracked anchor tracked) m

/-- The distance to the anchor recorded for a key, if any. -/
def entryDist (anchor : Coord) (m : NearestMap) (b : Biome) : Option Nat :=
  (lookupBiome m b).map (taxicab_distance anchor)

/-- The association list has pairwise-distinct keys (every HashMap does). -/
abbrev keysNodup (m : NearestMap) : Prop := (m.map Prod.fst).Nodup

def someMin (o : Option Nat) (n : Nat) : Option Nat :=
  match o with
  | none => some n
  | some k => some (min k n)

def optMin : Option Nat → Option Nat → Option Nat
  | none, o => o
  | some a, none => some a
  | some a, some b => some (min a b)

/-- The best (smallest) distance among the entries of a list carrying a key,
regardless of key multiplicity. -/
def bestDist (anchor : Coord) (entries : List (Biome × Coord)) (b : Biome) : Option Nat :=
  entries.foldl
    (fun o e => if e.1 = b then someMin o (taxicab_distance anchor e.2) else o) none

theorem lookup_set_same (m : NearestMap) (b : Biome) (c : Coord) :
    lookupBiome (setBiome m b c) b = some c := by
  induction m with
  | nil => simp [setBiome, lookupBiome]
  | cons e rest ih =>
    obtain ⟨b0, c0⟩ := e
    by_cases h : b0 = b
    · simp [setBiome, h, lookupBiome]
    · simp [setBiome, h, lookupBiome, ih]

theorem lookup_set_ne (m : NearestMap) (b b0 : Biome) (c : Coord) (h : b0 ≠ b) :
    lookupBiome (setBiome m b c) b0 = lookupBiome m b0 := by
  induction m with
  | nil =>
    simp only [setBiome, lookupBiome, if_neg (Ne.symm h)]
  | cons e rest ih =>
    obtain ⟨b1, c1⟩ := e
    by_cases h1 : b1 = b
    · subst h1
      simp only [setBiome, if_pos rfl, lookupBiome, if_neg (Ne.symm h)]
    · simp only [setBiome, if_neg h1, lookupBiome]
      by_cases h0 : b1 = b0
      · simp only [if_pos h0]
      · simp only [if_neg h0, ih]

theorem updateNearest_of_lookup_none (anchor : Coord) (m : NearestMap) (e : Biome × Coord)
    (h : lookupBiome m e.1 = none) :
    updateNearest anchor m e = setBiome m e.1 e.2 := by
  unfold updateNearest
  rw [h]

theorem updateNearest_of_lookup_some (anchor : Coord) (m : NearestMap) (e : Biome × Coord)
    (c0 : Coord) (h : lookupBiome m e.1 = some c0) :
    updateNearest anchor m e =
      if taxicab_distance anchor e.2 < taxicab_distance anchor c0 then
        setBiome m e.1 e.2
      else
        m := by
  unfold updateNearest
  rw [h]

theorem entryDist_update (anchor : Coord) (m : NearestMap) (e : Biome × Coord) (b : Biome) :
    entryDist anchor (updateNearest anchor m e) b =
      if e.1 = b then someMin (entryDist anchor m b) (taxicab_distance anchor e.2)
      else entryDist anchor m b := by
  cases hl : lookupBiome m e.1 with
  | none =>
    rw [updateNearest_of_lookup_none anchor m e hl]
    by_cases hb : e.1 = b
    · subst hb
      rw [if_pos rfl]
      simp [entryDist, lookup_set_same, hl, someMin]
    · rw [if_neg hb]
      simp only [entryDist, lookup_set_ne m e.1 b e.2 (Ne.symm hb)]
  | some c0 =>
    rw [updateNearest_of_lookup_some anchor m e c0 hl]
    by_cases hlt : taxicab_distance anchor e.2 < taxicab_distance anchor c0
    · rw [if_pos hlt]
      by_cases hb : e.1 = b
      · subst hb
        rw [if_pos rfl]
        simp only [entryDist, lookup_set_same, hl, Option.map_some', someMin]
        rw [min_eq_right hlt.le]
      · rw [if_neg hb]
        simp only [entryDist, lookup_set_ne m e.1 b e.2 (Ne.symm hb)]
    · rw [if_neg hlt]
      by_cases hb : e.1 = b
      · subst hb
        rw [if_pos rfl]
        simp only [entryDist, hl, Option.map_some', someMin]
        rw [min_eq_left (not_lt.mp hlt)]
      · rw [if_neg hb]

theorem entryDist_merge (anchor : Coord) (m : NearestMap) (entries : List (Biome × Coord))
    (b : Biome) :
    entryDist anchor (mergeNearest anchor m entries) b =
      entries.foldl
        (fun o e => if e.1 = b then someMin o (taxicab_distance anchor e.2) else o)
        (entryDist anchor m b) := by
  induction entries generalizing m with
  | nil => rfl
  | cons e rest ih =>
    simp only [mergeNearest, List.foldl_cons] at *
    rw [ih, entryDist_update]

theorem someMin_eq_optMin (o : Option Nat) (n : Nat) : someMin o n = optMin o (some n) := by
  cases o <;> rfl

theorem optMin_comm (o1 o2 : Option Nat) : optMin o1 o2 = optMin o2 o1 := by
  cases o1 <;> cases o2 <;> simp [optMin, Nat.min_comm]

theorem optMin_assoc (o1 o2 o3 : Option Nat) :
    optMin (optMin o1 o2) o3 = optMin o1 (optMin o2 o3) := by
  cases o1 <;> cases o2 <;> cases o3 <;> simp [optMin, Nat.min_assoc]

theorem foldDist_eq_optMin (anchor : Coord) (entries : List (Biome × Coord)) (b : Biome)
    (o : Option Nat) :
    entries.foldl
        (fun o e => if e.1 = b then someMin o (taxicab_distance anchor e.2) else o) o =
      optMin o (bestDist anchor entries b) := by
  induction entries generalizing o with
  | nil => cases o <;> rfl
  | cons e rest ih =>
    by_cases hb : e.1 = b
    · have hbest : bestDist anchor (e :: rest) b =
          optMin (some (taxicab_distance anchor e.2)) (bestDist anchor rest b) := by
        simp only [bestDist, List.foldl_cons, if_pos hb]
        rw [ih (someMin none (taxicab_distance anchor e.2))]
        rfl
      rw [List.foldl_cons, if_pos hb, someMin_eq_optMin, ih, hbest, optMin_assoc]
    · have hbest : bestDist anchor (e :: rest) b = bestDist anchor rest b := by
        simp only [bestDist, List.foldl_cons, if_neg hb]
      rw [List.foldl_cons, if_neg hb, ih, hbest]

theorem entryDist_merge_optMin (anchor : Coord) (m : NearestMap)
    (entries : List (Biome × Coord)) (b : Biome) :
    entryDist anchor (mergeNearest anchor m entries) b =
      optMin (entryDist anchor m b) (bestDist anchor entries b) := by
  rw [entryDist_merge, foldDist_eq_optMin]

theorem mem_keys_set (m : NearestMap) (b b0 : Biome) (c : Coord) :
    b0 ∈ (setBiome m b c).map Prod.fst ↔ b0 = b ∨ b0 ∈ m.map Prod.fst := by
  induction m with
  | nil => simp [setBiome]
  | cons e rest ih =>
    obtain ⟨b1, c1⟩ := e
    by_cases h1 : b1 = b
    · subst h1
      simp [setBiome]
    · simp only [setBiome, if_neg h1, List.map_cons, List.mem_cons, ih]
      tauto

theorem keysNodup_set (m : NearestMap) (b : Biome) (c : Coord) (h : keysNodup m) :
    keysNodup (setBiome m b c) := by
  induction m with
  | nil => simp [keysNodup, setBiome]
  | cons e rest ih =>
    obtain ⟨b1, c1⟩ := e
    simp only [keysNodup, List.map_cons, List.nodup_cons] at h
    by_cases h1 : b1 = b
    · subst h1
      have hset : setBiome ((b1, c1) :: rest) b1 c = (b1, c) :: rest := by
        simp [setBiome]
      rw [keysNodup, hset]
      simp only [List.map_cons, List.nodup_cons]
      exact h
    · simp only [keysNodup, setBiome, if_neg h1, List.map_cons, List.nodup_cons]
      refine ⟨?_, ih h.2⟩
      intro hmem
      rcases (mem_keys_set rest b b1 c).mp hmem with he | hm
      · exact h1 he
      · exact h.1 hm

theorem keysNodup_update (anchor : Coord) (m : NearestMap) (e : Biome × Coord)
    (h : keysNodup m) : keysNodup (updateNearest anchor m e) := by
  unfold updateNearest
  cases lookupBiome m e.1 with
  | none => exact keysNodup_set m e.1 e.2 h
  | some c0 =>
    by_cases hlt : taxicab_distance anchor e.2 < taxicab_distance anchor c0
    · simpa only [if_pos hlt] using keysNodup_set m e.1 e.2 h
    · simpa only [if_neg hlt] using h

theorem keysNodup_merge (anchor : Coord) (m : NearestMap) (entries : List (Biome × Coord))
    (h : keysNodup m) : keysNodup (mergeNearest anchor m entries) := by
  induction entries generalizing m with
  | nil => exact h
  | cons e rest ih => exact ih _ (keysNodup_update anchor m e h)

theorem lookup_eq_none_of_not_mem_keys (m : NearestMap) (b : Biome)
    (h : b ∉ m.map Prod.fst) : lookupBiome m b = none := by
  induction m with
  | nil => rfl
  | cons e rest ih =>
    obtain ⟨b1, c1⟩ := e
    simp only [List.map_cons, List.mem_cons] at h
    push_neg at h
    simp only [lookupBiome, if_neg (Ne.symm h.1)]
    exact ih h.2

theorem bestDist_of_not_mem_keys (anchor : Coord) (m : NearestMap) (b : Biome)
    (h : b ∉ m.map Prod.fst) : bestDist anchor m b = none := by
  induction m with
  | nil => rfl
  | cons e rest ih =>
    obtain ⟨b1, c1⟩ := e
    simp only [List.map_cons, List.mem_cons] at h
    push_neg at h
    simp only [bestDist, List.foldl_cons, if_neg (fun he : b1 = b => h.1 he.symm)] at *
    exact ih h.2

theorem bestDist_eq_entryDist (anchor : Coord) (m : NearestMap) (b : Biome)
    (h : keysNodup m) : bestDist anchor m b = entryDist anchor m b := by
  induction m with
  | nil => rfl
  | cons e rest ih =>
    obtain ⟨b1, c1⟩ := e
    simp only [keysNodup, List.map_cons, List.nodup_cons] at h
    by_cases hb : b1 = b
    · subst hb
      have hrest : bestDist anchor rest b1 = none := bestDist_of_not_mem_keys anchor rest b1 h.1
      simp only [bestDist, List.foldl_cons, if_pos rfl, entryDist, lookupBiome, if_pos rfl,
        Option.map_some]
      rw [foldDist_eq_optMin, hrest]
      rfl
    · simp only [bestDist, List.foldl_cons, if_neg hb, entryDist, lookupBiome, if_neg hb]
      exact ih h.2

/-- C4: merging nearest maps (keep, for each key present in either map, the
strictly closer coordinate, ties keeping the existing entry) is commutative
and associative up to the recorded distance: for every key, any order or
grouping yields the same distance to the anchor. -/
theorem c4_merge_comm_assoc (anchor : Coord) (A B C : NearestMap) (b : Biome)
    (hA : keysNodup A) (hB : keysNodup B) (hC : keysNodup C) :
    entryDist anchor (mergeNearest anchor A B) b =
      entryDist anchor (mergeNearest anchor B A) b ∧
    entryDist anchor (mergeNearest anchor (mergeNearest anchor A B) C) b =
      entryDist anchor (mergeNearest anchor A (mergeNearest anchor B C)) b := by
  constructor
  · rw [entryDist_merge_optMin, entryDist_merge_optMin,
      bestDist_eq_entryDist anchor A b hA, bestDist_eq_entryDist anchor B b hB,
      optMin_comm]
  · rw [entryDist_merge_optMin, entryDist_merge_optMin, entryDist_merge_optMin,
      bestDist_eq_entryDist anchor (mergeNearest anchor B C) b (keysNodup_merge anchor B C hB),
      entryDist_merge_optMin, bestDist_eq_entryDist anchor B b hB,
      bestDist_eq_entryDist anchor C b hC, optMin_assoc]

/-- Witness for c4_merge_comm_assoc on concrete three maps. -/
theorem c4_merge_comm_assoc_witness :
    keysNodup [((⟨"Desert"⟩ : Biome), ((3, 4) : Coord))] ∧
    keysNodup [((⟨"Desert"⟩ : Biome), ((1, 1) : Coord)), (⟨"Plains"⟩, (7, 0))] ∧
    keysNodup [((⟨"Plains"⟩ : Biome), ((2, 2) : Coord))] ∧
    (entryDist (0, 0)
        (mergeNearest (0, 0) [((⟨"Desert"⟩ : Biome), ((3, 4) : Coord))]
          [(⟨"Desert"⟩, (1, 1)), (⟨"Plains"⟩, (7, 0))]) ⟨"Desert"⟩ =
      entryDist (0, 0)
        (mergeNearest (0, 0) [((⟨"Desert"⟩ : Biome), ((1, 1) : Coord)), (⟨"Plains"⟩, (7, 0))]
          [(⟨"Desert"⟩, (3, 4))]) ⟨"Desert"⟩ ∧
     entryDist (0, 0)
        (mergeNearest (0, 0)
          (mergeNearest (0, 0) [((⟨"Desert"⟩ : Biome), ((3, 4) : Coord))]
            [(⟨"Desert"⟩, (1, 1)), (⟨"Plains"⟩, (7, 0))])
          [(⟨"Plains"⟩, (2, 2))]) ⟨"Desert"⟩ =
      entryDist (0, 0)
        (mergeNearest (0, 0) [((⟨"Desert"⟩ : Biome), ((3, 4) : Coord))]
          (mergeNearest (0, 0) [((⟨"Desert"⟩ : Biome), ((1, 1) : Coord)), (⟨"Plains"⟩, (7, 0))]
            [(⟨"Plains"⟩, (2, 2))])) ⟨"Desert"⟩) :=
  ⟨by decide, by decide, by decide,
   c4_merge_comm_assoc (0, 0) [(⟨"Desert"⟩, (3, 4))]
     [(⟨"Desert"⟩, (1, 1)), (⟨"Plains"⟩, (7, 0))] [(⟨"Plains"⟩, (2, 2))] ⟨"Desert"⟩
     (by decide) (by decide) (by decide)⟩

/-! ## The search controller (src/main.rs lines 144-183)

The controller composes, for every region it visits, the pipeline
region_biomes -> biomes_for_region -> closest_biomes_in_region and merges the
resulting per-region nearest map into the running map. The per-region pipeline
is abstracted as a parameter scan : Coord -> NearestMap giving each region
coordinate its nearest map (in the program, scan is closest_biomes_in_region
composed with region_biomes; the fallible loading path is modelled separately
with region_biomes). The unbounded loop for distance in 1.. is modelled with
explicit fuel; a none result means the fuel ran out before the loop broke. -/

/-- Source src/main.rs line 145: region_coords = [coords[0] >> 9, coords[1] >> 9]
(arithmetic shift right = floor division by 512). -/
def anchorRegion (anchor : Coord) : Coord :=
  (Int.fdiv anchor.1 512, Int.fdiv anchor.2 512)

/-- Source src/main.rs lines 151-159: process one ring of regions at the given
distance around the anchor region, merging each region's nearest map (tracked
biomes only) into the running map. -/
def scanRing (scan : Coord → NearestMap) (anchor : Coord) (tracked : List Biome)
    (dist : Int) (found : NearestMap) : NearestMap :=
  (coords_at_distance (anchorRegion anchor) dist).foldl
    (fun m reg => mergeTracked anchor tracked m (scan reg)) found

/-- Source src/main.rs lines 150-176: the ring loop. State: the next ring
distance, the running nearest map, and the all_found counter. After scanning a
ring the loop breaks if all_found >= 2 was already reached; otherwise
all_found is incremented whenever every tracked biome has an entry
(found.len() >= ADV_TIME_BIOMES.len() in the source). Returns the list of
ring distances processed by the loop together with the final map. -/
def searchLoop (scan : Coord → NearestMap) (anchor : Coord) (tracked : List Biome) :
    Nat → Int → NearestMap → Nat → Option (List Int × NearestMap)
  | 0, _, _, _ => none
  | fuel + 1, dist, found, allFound =>
    let found2 := scanRing scan anchor tracked dist found
    if 2 ≤ allFound then
      some ([dist], found2)
    else
      (searchLoop scan anchor tracked fuel (dist + 1) found2
        (if tracked.length ≤ found2.length then allFound + 1 else allFound)).map
        fun r => (dist :: r.1, r.2)

/-- Source src/main.rs lines 144-183: closest_adv_time_biomes. Ring 0 is the
anchor region itself, scanned directly (line 146) and filtered to the tracked
set; the loop then starts at distance 1. The source fixes tracked to
ADV_TIME_BIOMES; it is a parameter here. -/
def closest_adv_time_biomes (scan : Coord → NearestMap) (anchor : Coord)
    (tracked : List Biome) (fuel : Nat) : Option (List Int × NearestMap) :=
  let found0 := (scan (anchorRegion anchor)).filter fun e => decide (e.1 ∈ tracked)
  (searchLoop scan anchor tracked fuel 1 found0 0).map fun r => ((0 : Int) :: r.1, r.2)

/-- The cumulative nearest map after the controller has processed rings
0, 1, ..., k. -/
def foundUpTo (scan : Coord → NearestMap) (anchor : Coord) (tracked : List Biome) :
    Nat → NearestMap
  | 0 => (scan (anchorRegion anchor)).filter fun e => decide (e.1 ∈ tracked)
  | k + 1 => scanRing scan anchor tracked ((k : Int) + 1) (foundUpTo scan anchor tracked k)

/-- The list a, a+1, ..., a+n-1 of ring distances. -/
def ringsFrom (a : Int) : Nat → List Int
  | 0 => []
  | n + 1 => a :: ringsFrom (a + 1) n

/-! Map sizes never shrink under updates. -/

theorem length_setBiome (m : NearestMap) (b : Biome) (c : Coord) :
    m.length ≤ (setBiome m b c).length := by
  induction m with
  | nil => simp [setBiome]
  | cons e rest ih =>
    obtain ⟨b1, c1⟩ := e
    by_cases h1 : b1 = b
    · simp [setBiome, h1]
    · simp only [setBiome, if_neg h1, List.length_cons]
      omega

theorem length_updateNearest (anchor : Coord) (m : NearestMap) (e : Biome × Coord) :
    m.length ≤ (updateNearest anchor m e).length := by
  cases hl : lookupBiome m e.1 with
  | none =>
    rw [updateNearest_of_lookup_none anchor m e hl]
    exact length_setBiome m e.1 e.2
  | some c0 =>
    rw [updateNearest_of_lookup_some anchor m e c0 hl]
    by_cases hlt : taxicab_distance anchor e.2 < taxicab_distance anchor c0
    · rw [if_pos hlt]
      exact length_setBiome m e.1 e.2
    · rw [if_neg hlt]

theorem length_updateTracked (anchor : Coord) (tracked : List Biome) (m : NearestMap)
    (e : Biome × Coord) : m.length ≤ (updateTracked anchor tracked m e).length := by
  unfold updateTracked
  by_cases ht : e.1 ∈ tracked
  · rw [if_pos ht]
    exact length_updateNearest anchor m e
  · rw [if_neg ht]

theorem length_mergeTracked (anchor : Coord) (tracked : List Biome) (m : NearestMap)
    (entries : List (Biome × Coord)) : m.length ≤ (mergeTracked anchor tracked m entries).length := by
  induction entries generalizing m with
  | nil => exact Nat.le_refl _
  | cons e rest ih =>
    calc m.length ≤ (updateTracked anchor tracked m e).length :=
          length_updateTracked anchor tracked m e
      _ ≤ _ := ih _

theorem length_scanRing (scan : Coord → NearestMap) (anchor : Coord) (tracked : List Biome)
    (dist : Int) (found : NearestMap) :
    found.length ≤ (scanRing scan anchor tracked dist found).length := by
  unfold scanRing
  generalize coords_at_distance (anchorRegion anchor) dist = regions
  induction regions generalizing found with
  | nil => exact Nat.le_refl _
  | cons reg rest ih =>
    calc found.length ≤ (mergeTracked anchor tracked found (scan reg)).length :=
          length_mergeTracked anchor tracked found (scan reg)
      _ ≤ _ := ih _

theorem length_foundUpTo_mono (scan : Coord → NearestMap) (anchor : Coord)
    (tracked : List Biome) (j k : Nat) (h : j ≤ k) :
    (foundUpTo scan anchor tracked j).length ≤ (foundUpTo scan anchor tracked k).length := by
  induction k with
  | zero =>
    have : j = 0 := Nat.le_zero.mp h
    subst this
    exact Nat.le_refl _
  | succ k ih =>
    rcases Nat.lt_or_ge j (k + 1) with hlt | hge
    · calc (foundUpTo scan anchor tracked j).length
          ≤ (foundUpTo scan anchor tracked k).length := ih (Nat.lt_succ_iff.mp hlt)
        _ ≤ _ := length_scanRing scan anchor tracked _ _
    · have : j = k + 1 := Nat.le_antisymm h hge
      subst this
      exact Nat.le_refl _

theorem searchLoop_succ (scan : Coord → NearestMap) (anchor : Coord) (tracked : List Biome)
    (fuel : Nat) (dist : Int) (found : NearestMap) (allFound : Nat) :
    searchLoop scan anchor tracked (fuel + 1) dist found allFound =
      if 2 ≤ allFound then
        some ([dist], scanRing scan anchor tracked dist found)
      else
        (searchLoop scan anchor tracked fuel (dist + 1)
            (scanRing scan anchor tracked dist found)
            (if tracked.length ≤ (scanRing scan anchor tracked dist found).length then
              allFound + 1
            else allFound)).map
          fun r => (dist :: r.1, r.2) := rfl

theorem foundUpTo_succ (scan : Coord → NearestMap) (anchor : Coord) (tracked : List Biome)
    (k : Nat) :
    foundUpTo scan anchor tracked (k + 1) =
      scanRing scan anchor tracked ((k : Int) + 1) (foundUpTo scan anchor tracked k) := rfl

/-- Once the tracked set is complete right after ring j+n (and was incomplete
after ring j+n-1... expressed by incompleteness after ring j+n combined with
completeness after ring j+n+1), the loop starting at ring j+1 with all_found 0
processes exactly the rings j+1, ..., j+n+3 and stops. -/
theorem searchLoop_ringsFrom (scan : Coord → NearestMap) (anchor : Coord)
    (tracked : List Biome) (n : Nat) :
    ∀ (j fuel : Nat),
      tracked.length ≤ (foundUpTo scan anchor tracked (j + n + 1)).length →
      (foundUpTo scan anchor tracked (j + n)).length < tracked.length →
      n + 3 ≤ fuel →
      searchLoop scan anchor tracked fuel ((j : Int) + 1) (foundUpTo scan anchor tracked j) 0 =
        some (ringsFrom ((j : Int) + 1) (n + 3), foundUpTo scan anchor tracked (j + n + 3)) := by
  induction n with
  | zero =>
    intro j fuel h1 h0 hfuel
    simp only [Nat.add_zero, Nat.zero_add] at h1 h0 ⊢
    obtain ⟨f1, rfl⟩ : ∃ f1, fuel = f1 + 1 := ⟨fuel - 1, by omega⟩
    obtain ⟨f2, rfl⟩ : ∃ f2, f1 = f2 + 1 := ⟨f1 - 1, by omega⟩
    obtain ⟨f3, rfl⟩ : ∃ f3, f2 = f3 + 1 := ⟨f2 - 1, by omega⟩
    have hc1 : ((j : Int) + 1) + 1 = (((j + 1 : Nat)) : Int) + 1 := by push_cast; ring
    have hc2 : (((j + 1 : Nat) : Int) + 1) + 1 = (((j + 2 : Nat)) : Int) + 1 := by
      push_cast; ring
    have hi1 : j + 1 + 1 = j + 2 := by omega
    have hi2 : j + 2 + 1 = j + 3 := by omega
    rw [searchLoop_succ, if_neg (by omega), ← foundUpTo_succ, if_pos h1, hc1]
    rw [searchLoop_succ, if_neg (by omega), ← foundUpTo_succ,
      if_pos (le_trans h1 (length_foundUpTo_mono scan anchor tracked _ _ (by omega)))]
    rw [hi1, hc2]
    rw [searchLoop_succ, if_pos (by omega), ← foundUpTo_succ, hi2]
    simp only [Option.map_some']
    rw [← hc2, ← hc1]
    rfl
  | succ n ih =>
    intro j fuel h1 h0 hfuel
    obtain ⟨f, rfl⟩ : ∃ f, fuel = f + 1 := ⟨fuel - 1, by omega⟩
    have hc1 : ((j : Int) + 1) + 1 = (((j + 1 : Nat)) : Int) + 1 := by push_cast; ring
    have hnotyet : ¬ tracked.length ≤ (foundUpTo scan anchor tracked (j + 1)).length := by
      have hmono : (foundUpTo scan anchor tracked (j + 1)).length ≤
          (foundUpTo scan anchor tracked (j + (n + 1))).length :=
        length_foundUpTo_mono scan anchor tracked _ _ (by omega)
      omega
    rw [searchLoop_succ, if_neg (by omega), ← foundUpTo_succ, if_neg hnotyet, hc1]
    have h1a : tracked.length ≤ (foundUpTo scan anchor tracked ((j + 1) + n + 1)).length := by
      have : (j + 1) + n + 1 = j + (n + 1) + 1 := by omega
      rw [this]
      exact h1
    have h0a : (foundUpTo scan anchor tracked ((j + 1) + n)).length < tracked.length := by
      have : (j + 1) + n = j + (n + 1) := by omega
      rw [this]
      exact h0
    rw [ih (j + 1) f h1a h0a (by omega)]
    simp only [Option.map_some']
    have hidx : j + 1 + n + 3 = j + (n + 1) + 3 := by omega
    rw [hidx, ← hc1]
    rfl

/-- C3 (amended): if the tracked set first becomes complete after scanning
ring d for some d >= 1 (complete after ring d, incomplete after ring d-1),
the controller processes exactly two further rings d+1 and d+2, still merging
their results into the nearest map, and then stops: the rings processed are
exactly 0, 1, ..., d+2 and the final map is the one accumulated through ring
d+2. With d = 2 this is the five-ring example 0, 1, 2, 3, 4. (When the set is
already complete after ring 0, the loop only tests completeness after each
ring of the loop, so rings 1, 2 and 3 are processed: see the counterexample.) -/
theorem c3_convergence_rings (scan : Coord → NearestMap) (anchor : Coord)
    (tracked : List Biome) (d fuel : Nat) (hd : 1 ≤ d)
    (hfirst : tracked.length ≤ (foundUpTo scan anchor tracked d).length)
    (hbefore : (foundUpTo scan anchor tracked (d - 1)).length < tracked.length)
    (hfuel : d + 2 ≤ fuel) :
    closest_adv_time_biomes scan anchor tracked fuel =
      some ((0 : Int) :: ringsFrom 1 (d + 2), foundUpTo scan anchor tracked (d + 2)) := by
  obtain ⟨n, rfl⟩ : ∃ n, d = n + 1 := ⟨d - 1, by omega⟩
  have hb : (foundUpTo scan anchor tracked (0 + n)).length < tracked.length := by
    have he : (0 : Nat) + n = n + 1 - 1 := by omega
    rw [he]
    exact hbefore
  have hf : tracked.length ≤ (foundUpTo scan anchor tracked (0 + n + 1)).length := by
    have he : (0 : Nat) + n + 1 = n + 1 := by omega
    rw [he]
    exact hfirst
  have hmain := searchLoop_ringsFrom scan anchor tracked n 0 fuel hf hb (by omega)
  simp only [closest_adv_time_biomes]
  have hfound0 : ((scan (anchorRegion anchor)).filter fun e => decide (e.1 ∈ tracked))
      = foundUpTo scan anchor tracked 0 := rfl
  have hone : (1 : Int) = ((0 : Nat) : Int) + 1 := by norm_num
  rw [hfound0, hone, hmain]
  simp only [Option.map_some']
  have hidx : (0 : Nat) + n + 3 = n + 1 + 2 := by omega
  rw [hidx]

/-- A synthetic per-region scan for the witness: the anchor region holds
Desert, each ring-1 region holds Plains, each ring-2 region holds Forest, so
the third tracked biome is first found at ring 2. -/
def wScan : Coord → NearestMap := fun reg =>
  if reg = (0, 0) then [(⟨"Desert"⟩, (1, 1))]
  else if taxicab_distance (0, 0) reg = 1 then [(⟨"Plains"⟩, (600, 0))]
  else if taxicab_distance (0, 0) reg = 2 then [(⟨"Forest"⟩, (1200, 0))]
  else []

def wTracked : List Biome := [⟨"Desert"⟩, ⟨"Plains"⟩, ⟨"Forest"⟩]

/-- Witness for c3_convergence_rings: the last tracked biome is first found
while scanning ring 2, and the controller processes exactly rings 0, 1, 2, 3,
4 and stops. -/
theorem c3_convergence_rings_witness :
    (1 ≤ 2 ∧
     wTracked.length ≤ (foundUpTo wScan (0, 0) wTracked 2).length ∧
     (foundUpTo wScan (0, 0) wTracked (2 - 1)).length < wTracked.length ∧
     2 + 2 ≤ 5) ∧
    closest_adv_time_biomes wScan (0, 0) wTracked 5 =
      some ((0 : Int) :: ringsFrom 1 (2 + 2), foundUpTo wScan (0, 0) wTracked (2 + 2)) :=
  ⟨⟨by decide, by decide, by decide, by decide⟩,
   c3_convergence_rings wScan (0, 0) wTracked 2 5 (by decide) (by decide) (by decide)
     (by decide)⟩

/-- A synthetic scan under which the tracked set is already complete after
ring 0. -/
def cxScan : Coord → NearestMap := fun _ => [(⟨"Plains"⟩, (0, 0))]

def cxTracked : List Biome := [⟨"Plains"⟩]

/-- C3 as stated is false: when the tracked set is already complete after the
anchor ring (d = 0), the controller does not stop after two further rings; it
processes rings 0, 1, 2, 3 (three further rings), because the completeness
test only runs inside the ring loop, after each ring scan. -/
theorem c3_counterexample :
    cxTracked.length ≤ (foundUpTo cxScan (0, 0) cxTracked 0).length ∧
    closest_adv_time_biomes cxScan (0, 0) cxTracked 10 =
      some ([0, 1, 2, 3], [(⟨"Plains"⟩, (0, 0))]) ∧
    ([0, 1, 2, 3] : List Int) ≠ [0, 1, 2] := by
  decide

/-! ## Monotonicity of the nearest map (C5) and ring-0 handling (C10) -/

theorem lookup_updateNearest_mono (anchor : Coord) (m : NearestMap) (e : Biome × Coord)
    (b : Biome) (c : Coord) (h : lookupBiome m b = some c) :
    ∃ c2, lookupBiome (updateNearest anchor m e) b = some c2 ∧
      taxicab_distance anchor c2 ≤ taxicab_distance anchor c := by
  cases hl : lookupBiome m e.1 with
  | none =>
    rw [updateNearest_of_lookup_none anchor m e hl]
    by_cases hb : e.1 = b
    · rw [hb, h] at hl
      exact absurd hl (by simp)
    · refine ⟨c, ?_, Nat.le_refl _⟩
      rw [lookup_set_ne m e.1 b e.2 (Ne.symm hb)]
      exact h
  | some c0 =>
    rw [updateNearest_of_lookup_some anchor m e c0 hl]
    by_cases hlt : taxicab_distance anchor e.2 < taxicab_distance anchor c0
    · rw [if_pos hlt]
      by_cases hb : e.1 = b
      · subst hb
        rw [h] at hl
        have hcc : c = c0 := Option.some.inj hl
        subst hcc
        exact ⟨e.2, lookup_set_same m e.1 e.2, Nat.le_of_lt hlt⟩
      · refine ⟨c, ?_, Nat.le_refl _⟩
        rw [lookup_set_ne m e.1 b e.2 (Ne.symm hb)]
        exact h
    · rw [if_neg hlt]
      exact ⟨c, h, Nat.le_refl _⟩

theorem lookup_updateTracked_mono (anchor : Coord) (tracked : List Biome) (m : NearestMap)
    (e : Biome × Coord) (b : Biome) (c : Coord) (h : lookupBiome m b = some c) :
    ∃ c2, lookupBiome (updateTracked anchor tracked m e) b = some c2 ∧
      taxicab_distance anchor c2 ≤ taxicab_distance anchor c := by
  unfold updateTracked
  by_cases ht : e.1 ∈ tracked
  · rw [if_pos ht]
    exact lookup_updateNearest_mono anchor m e b c h
  · rw [if_neg ht]
    exact ⟨c, h, Nat.le_refl _⟩

theorem lookup_mergeTracked_mono (anchor : Coord) (tracked : List Biome) (m : NearestMap)
    (entries : List (Biome × Coord)) (b : Biome) (c : Coord)
    (h : lookupBiome m b = some c) :
    ∃ c2, lookupBiome (mergeTracked anchor tracked m entries) b = some c2 ∧
      taxicab_distance anchor c2 ≤ taxicab_distance anchor c := by
  induction entries generalizing m c with
  | nil => exact ⟨c, h, Nat.le_refl _⟩
  | cons e rest ih =>
    obtain ⟨c1, h1, hle1⟩ := lookup_updateTracked_mono anchor tracked m e b c h
    obtain ⟨c2, h2, hle2⟩ := ih (updateTracked anchor tracked m e) c1 h1
    exact ⟨c2, h2, Nat.le_trans hle2 hle1⟩

theorem lookup_scanRing_mono (scan : Coord → NearestMap) (anchor : Coord)
    (tracked : List Biome) (dist : Int) (found : NearestMap) (b : Biome) (c : Coord)
    (h : lookupBiome found b = some c) :
    ∃ c2, lookupBiome (scanRing scan anchor tracked dist found) b = some c2 ∧
      taxicab_distance anchor c2 ≤ taxicab_distance anchor c := by
  unfold scanRing
  generalize coords_at_distance (anchorRegion anchor) dist = regs
  induction regs generalizing found c with
  | nil => exact ⟨c, h, Nat.le_refl _⟩
  | cons reg rest ih =>
    obtain ⟨c1, h1, hle1⟩ := lookup_mergeTracked_mono anchor tracked found (scan reg) b c h
    obtain ⟨c2, h2, hle2⟩ := ih (mergeTracked anchor tracked found (scan reg)) c1 h1
    exact ⟨c2, h2, Nat.le_trans hle2 hle1⟩

theorem lookup_searchLoop_mono (scan : Coord → NearestMap) (anchor : Coord)
    (tracked : List Biome) (fuel : Nat) :
    ∀ (dist : Int) (found : NearestMap) (allFound : Nat) (rings : List Int)
      (found2 : NearestMap) (b : Biome) (c : Coord),
      searchLoop scan anchor tracked fuel dist found allFound = some (rings, found2) →
      lookupBiome found b = some c →
      ∃ c2, lookupBiome found2 b = some c2 ∧
        taxicab_distance anchor c2 ≤ taxicab_distance anchor c := by
  induction fuel with
  | zero =>
    intro dist found allFound rings found2 b c hres
    exact absurd hres (by simp [searchLoop])
  | succ f ih =>
    intro dist found allFound rings found2 b c hres hc
    rw [searchLoop_succ] at hres
    by_cases hbreak : 2 ≤ allFound
    · rw [if_pos hbreak] at hres
      simp only [Option.some.injEq, Prod.mk.injEq] at hres
      obtain ⟨hr, hf2⟩ := hres
      subst hf2
      exact lookup_scanRing_mono scan anchor tracked dist found b c hc
    · rw [if_neg hbreak] at hres
      rw [Option.map_eq_some'] at hres
      obtain ⟨⟨rings1, found1⟩, hinner, heq⟩ := hres
      simp only [Prod.mk.injEq] at heq
      obtain ⟨hr, hf2⟩ := heq
      subst hf2
      obtain ⟨c1, h1, hle1⟩ := lookup_scanRing_mono scan anchor tracked dist found b c hc
      obtain ⟨c2, h2, hle2⟩ := ih (dist + 1) _ _ rings1 found1 b c1 hinner h1
      exact ⟨c2, h2, Nat.le_trans hle2 hle1⟩

theorem lookup_updateTracked_cases (anchor : Coord) (tracked : List Biome) (m : NearestMap)
    (e : Biome × Coord) (b : Biome) (c : Coord) (h : lookupBiome m b = some c) :
    lookupBiome (updateTracked anchor tracked m e) b = some c ∨
    ∃ c2, lookupBiome (updateTracked anchor tracked m e) b = some c2 ∧
      taxicab_distance anchor c2 < taxicab_distance anchor c := by
  unfold updateTracked
  by_cases ht : e.1 ∈ tracked
  · rw [if_pos ht]
    cases hl : lookupBiome m e.1 with
    | none =>
      rw [updateNearest_of_lookup_none anchor m e hl]
      by_cases hb : e.1 = b
      · rw [hb, h] at hl
        exact absurd hl (by simp)
      · left
        rw [lookup_set_ne m e.1 b e.2 (Ne.symm hb)]
        exact h
    | some c0 =>
      rw [updateNearest_of_lookup_some anchor m e c0 hl]
      by_cases hlt : taxicab_distance anchor e.2 < taxicab_distance anchor c0
      · rw [if_pos hlt]
        by_cases hb : e.1 = b
        · subst hb
          rw [h] at hl
          have hcc : c = c0 := Option.some.inj hl
          subst hcc
          right
          exact ⟨e.2, lookup_set_same m e.1 e.2, hlt⟩
        · left
          rw [lookup_set_ne m e.1 b e.2 (Ne.symm hb)]
          exact h
      · rw [if_neg hlt]
        left
        exact h
  · rw [if_neg ht]
    left
    exact h

theorem isSome_getD_of_exists (anchor : Coord) (m : NearestMap) (b : Biome) (bound : Nat)
    (h : ∃ c2, lookupBiome m b = some c2 ∧ taxicab_distance anchor c2 ≤ bound) :
    (lookupBiome m b).isSome = true ∧ (entryDist anchor m b).getD 0 ≤ bound := by
  obtain ⟨c2, h2, hle⟩ := h
  constructor
  · rw [h2]
    rfl
  · simp only [entryDist, h2, Option.map_some', Option.getD_some]
    exact hle

/-- C5: the nearest map only ever improves. At every update step of a search
run — the single-entry update of the controller (line 156), the fold of a
whole region's entries into the running map (lines 155-159), and any full run
of the ring loop — a biome that has an entry keeps an entry (entries are
never removed), the recorded taxicab distance to the anchor never increases,
and an existing entry is replaced only by a strictly closer coordinate. -/
theorem c5_nearest_monotone (anchor : Coord) (tracked : List Biome) (m : NearestMap)
    (e : Biome × Coord) (entries : List (Biome × Coord)) (scan : Coord → NearestMap)
    (fuel : Nat) (dist : Int) (found : NearestMap) (allFound : Nat) (rings : List Int)
    (found2 : NearestMap) (b b2 : Biome) (c c2 : Coord)
    (h1 : lookupBiome m b = some c)
    (h2 : searchLoop scan anchor tracked fuel dist found allFound = some (rings, found2))
    (h3 : lookupBiome found b2 = some c2) :
    ((lookupBiome (updateTracked anchor tracked m e) b).isSome = true ∧
     (entryDist anchor (updateTracked anchor tracked m e) b).getD 0 ≤
       taxicab_distance anchor c) ∧
    (lookupBiome (updateTracked anchor tracked m e) b = some c ∨
     (entryDist anchor (updateTracked anchor tracked m e) b).getD 0 <
       taxicab_distance anchor c) ∧
    ((lookupBiome (mergeTracked anchor tracked m entries) b).isSome = true ∧
     (entryDist anchor (mergeTracked anchor tracked m entries) b).getD 0 ≤
       taxicab_distance anchor c) ∧
    ((lookupBiome found2 b2).isSome = true ∧
     (entryDist anchor found2 b2).getD 0 ≤ taxicab_distance anchor c2) := by
  refine ⟨isSome_getD_of_exists anchor _ b _
      (lookup_updateTracked_mono anchor tracked m e b c h1), ?_,
    isSome_getD_of_exists anchor _ b _
      (lookup_mergeTracked_mono anchor tracked m entries b c h1),
    isSome_getD_of_exists anchor _ b2 _
      (lookup_searchLoop_mono scan anchor tracked fuel dist found allFound rings found2 b2 c2
        h2 h3)⟩
  rcases lookup_updateTracked_cases anchor tracked m e b c h1 with hsame | ⟨c3, h3a, hlt⟩
  · exact Or.inl hsame
  · right
    simp only [entryDist, h3a, Option.map_some', Option.getD_some]
    exact hlt

/-- Witness for c5_nearest_monotone on a concrete run. -/
theorem c5_nearest_monotone_witness :
    lookupBiome [((⟨"Plains"⟩ : Biome), ((3, 0) : Coord))] ⟨"Plains"⟩ = some (3, 0) ∧
    searchLoop cxScan (0, 0) cxTracked 10 1 [(⟨"Plains"⟩, (5, 5))] 0 =
      some ([1, 2, 3], [(⟨"Plains"⟩, (0, 0))]) ∧
    lookupBiome [((⟨"Plains"⟩ : Biome), ((5, 5) : Coord))] ⟨"Plains"⟩ = some (5, 5) ∧
    (((lookupBiome (updateTracked (0, 0) cxTracked [(⟨"Plains"⟩, (3, 0))]
          (⟨"Plains"⟩, (1, 0))) ⟨"Plains"⟩).isSome = true ∧
      (entryDist (0, 0) (updateTracked (0, 0) cxTracked [(⟨"Plains"⟩, (3, 0))]
          (⟨"Plains"⟩, (1, 0))) ⟨"Plains"⟩).getD 0 ≤
        taxicab_distance (0, 0) (3, 0)) ∧
     (lookupBiome (updateTracked (0, 0) cxTracked [(⟨"Plains"⟩, (3, 0))]
          (⟨"Plains"⟩, (1, 0))) ⟨"Plains"⟩ = some (3, 0) ∨
      (entryDist (0, 0) (updateTracked (0, 0) cxTracked [(⟨"Plains"⟩, (3, 0))]
          (⟨"Plains"⟩, (1, 0))) ⟨"Plains"⟩).getD 0 <
        taxicab_distance (0, 0) (3, 0)) ∧
     ((lookupBiome (mergeTracked (0, 0) cxTracked [(⟨"Plains"⟩, (3, 0))]
          [(⟨"Plains"⟩, (2, 0))]) ⟨"Plains"⟩).isSome = true ∧
      (entryDist (0, 0) (mergeTracked (0, 0) cxTracked [(⟨"Plains"⟩, (3, 0))]
          [(⟨"Plains"⟩, (2, 0))]) ⟨"Plains"⟩).getD 0 ≤
        taxicab_distance (0, 0) (3, 0)) ∧
     (((lookupBiome [((⟨"Plains"⟩ : Biome), ((0, 0) : Coord))] ⟨"Plains"⟩).isSome = true) ∧
      (entryDist (0, 0) [((⟨"Plains"⟩ : Biome), ((0, 0) : Coord))] ⟨"Plains"⟩).getD 0 ≤
        taxicab_distance (0, 0) (5, 5))) :=
  ⟨by decide, by decide, by decide,
   c5_nearest_monotone (0, 0) cxTracked [(⟨"Plains"⟩, (3, 0))] (⟨"Plains"⟩, (1, 0))
     [(⟨"Plains"⟩, (2, 0))] cxScan 10 1 [(⟨"Plains"⟩, (5, 5))] 0 [1, 2, 3]
     [(⟨"Plains"⟩, (0, 0))] ⟨"Plains"⟩ ⟨"Plains"⟩ (3, 0) (5, 5)
     (by decide) (by decide) (by decide)⟩

theorem searchLoop_rings_ge (scan : Coord → NearestMap) (anchor : Coord)
    (tracked : List Biome) (fuel : Nat) :
    ∀ (dist : Int) (found : NearestMap) (allFound : Nat) (rings : List Int)
      (found2 : NearestMap),
      searchLoop scan anchor tracked fuel dist found allFound = some (rings, found2) →
      ∀ r ∈ rings, dist ≤ r := by
  induction fuel with
  | zero =>
    intro dist found allFound rings found2 hres
    exact absurd hres (by simp [searchLoop])
  | succ f ih =>
    intro dist found allFound rings found2 hres r hr
    rw [searchLoop_succ] at hres
    by_cases hbreak : 2 ≤ allFound
    · rw [if_pos hbreak] at hres
      simp only [Option.some.injEq, Prod.mk.injEq] at hres
      obtain ⟨hrr, _⟩ := hres
      rw [← hrr] at hr
      simp only [List.mem_singleton] at hr
      omega
    · rw [if_neg hbreak] at hres
      rw [Option.map_eq_some'] at hres
      obtain ⟨⟨rings1, found1⟩, hinner, heq⟩ := hres
      simp only [Prod.mk.injEq] at heq
      obtain ⟨hrr, _⟩ := heq
      rw [← hrr] at hr
      rcases List.mem_cons.mp hr with hre | hrm
      · omega
      · have := ih (dist + 1) _ _ rings1 found1 hinner r hrm
        omega

/-- C10: coords_at_distance yields the empty sequence at distance 0 (it does
not fail), and the controller handles ring 0 separately: the ring list of
every completed run starts with ring 0 (the anchor region, scanned directly
at line 146) and every ring the loop itself processes through the ring
generator has distance at least 1. -/
theorem c10_ring_zero (c : Coord) (scan : Coord → NearestMap) (anchor : Coord)
    (tracked : List Biome) (fuel : Nat) (rings : List Int) (fm : NearestMap) (r : Int)
    (hres : closest_adv_time_biomes scan anchor tracked fuel = some (rings, fm)) :
    coords_at_distance c 0 = [] ∧
    rings.head? = some 0 ∧
    (r ∈ rings.tail → 1 ≤ r) := by
  simp only [closest_adv_time_biomes, Option.map_eq_some'] at hres
  obtain ⟨⟨rings1, found1⟩, hinner, heq⟩ := hres
  simp only [Prod.mk.injEq] at heq
  obtain ⟨hrr, _⟩ := heq
  refine ⟨rfl, ?_, ?_⟩
  · rw [← hrr]
    rfl
  · intro hr
    rw [← hrr] at hr
    simp only [List.tail_cons] at hr
    exact searchLoop_rings_ge scan anchor tracked fuel 1 _ 0 rings1 found1 hinner r hr

/-- Witness for c10_ring_zero on a concrete completed run. -/
theorem c10_ring_zero_witness :
    closest_adv_time_biomes cxScan (0, 0) cxTracked 10 =
      some ([0, 1, 2, 3], [(⟨"Plains"⟩, (0, 0))]) ∧
    (coords_at_distance (7, 7) 0 = [] ∧
     ([(0 : Int), 1, 2, 3] : List Int).head? = some 0 ∧
     ((2 : Int) ∈ ([(0 : Int), 1, 2, 3] : List Int).tail → 1 ≤ (2 : Int))) :=
  ⟨by decide,
   c10_ring_zero (7, 7) cxScan (0, 0) cxTracked 10 [0, 1, 2, 3] [(⟨"Plains"⟩, (0, 0))] 2
     (by decide)⟩

/-! ## Region stitching (src/main.rs lines 126-142)

Grids are modelled as index functions: a chunk grid maps (bz, bx) to a biome
and a region grid maps (cz, cx) to an optional chunk grid, mirroring the
boxed nested arrays of the source (buf[cz][cx][bz][bx]); indices used by the
code are 0..31 and 0..15. The oracle seed_biome is a parameter
oracle : Coord -> Biome (it is a pure function of the block coordinates for a
fixed world, per the spec); the coordinates each call receives are recorded
by slotOracleCalls / regionOracleCalls in the source's iteration order. -/

/-- A chunk's 16x16 biome grid, indexed [bz][bx] as the source indexes it. -/
abbrev ChunkGrid := Nat → Nat → Biome

/-- A region's 32x32 grid of optional chunk grids, indexed [cz][cx]. -/
abbrev RegionGrid := Nat → Nat → Option ChunkGrid

/-- Source src/main.rs line 135: the block coordinates the code passes to
seed_biome when filling column (bx, bz) of chunk slot (cx, cz) of region
(rx, rz): [(rz << 9) + (cz << 4) + bx, (rx << 9) + (cx << 4) + bz]. -/
def seed_call_coords (rx rz : Int) (cx cz bx bz : Nat) : Coord :=
  (rz * 512 + (cz : Int) * 16 + (bx : Int), rx * 512 + (cx : Int) * 16 + (bz : Int))

/-- Source src/main.rs line 191: the block coordinates under which column
(bx, bz) of chunk (cx, cz) of region (rx, rz) is ranked by
closest_biomes_in_region: [(rx << 9) + (cx << 4) + bx, (rz << 9) + (cz << 4) + bz]. -/
def block_coords (rx rz : Int) (cx cz bx bz : Nat) : Coord :=
  (rx * 512 + (cx : Int) * 16 + (bx : Int), rz * 512 + (cz : Int) * 16 + (bz : Int))

/-- Source src/main.rs lines 130-138: one chunk slot of the stitched output;
a present chunk is copied verbatim, an absent one is filled per column from
the oracle. -/
def stitchSlot (oracle : Coord → Biome) (rx rz : Int) (cz cx : Nat) :
    Option ChunkGrid → ChunkGrid
  | some chunk => chunk
  | none => fun bz bx => oracle (seed_call_coords rx rz cx cz bx bz)

/-- Source src/main.rs lines 126-142: biomes_for_region. -/
def biomes_for_region (oracle : Coord → Biome) (rx rz : Int) (rg : RegionGrid)
    (cz cx : Nat) : ChunkGrid :=
  stitchSlot oracle rx rz cz cx (rg cz cx)

/-- The in-chunk column indices (bz, bx) in the iteration order of lines
133-134 (bz outer, bx inner). -/
def columnIndices : List (Nat × Nat) :=
  (List.range 16).flatMap fun bz => (List.range 16).map fun bx => (bz, bx)

/-- The oracle calls issued for one chunk slot, in source order: none for a
present chunk, one call per column for an absent one. -/
def slotOracleCalls (rx rz : Int) (cz cx : Nat) : Option ChunkGrid → List Coord
  | some _ => []
  | none => columnIndices.map fun q => seed_call_coords rx rz cx cz q.2 q.1

/-- The chunk slot indices (cz, cx) in the iteration order of lines 128-129. -/
def slotIndices : List (Nat × Nat) :=
  (List.range 32).flatMap fun cz => (List.range 32).map fun cx => (cz, cx)

/-- All oracle calls issued while stitching one region, in source order. -/
def regionOracleCalls (rx rz : Int) (rg : RegionGrid) : List Coord :=
  slotIndices.flatMap fun p => slotOracleCalls rx rz p.1 p.2 (rg p.1 p.2)

/-- The number of absent chunk slots of a region grid. -/
def absentSlotCount (rg : RegionGrid) : Nat :=
  (slotIndices.map fun p => rg p.1 p.2).countP Option.isNone

set_option maxRecDepth 4096 in
theorem columnIndices_length : columnIndices.length = 256 := by decide

set_option maxRecDepth 8192 in
theorem columnIndices_nodup : columnIndices.Nodup := by decide

theorem mem_columnIndices_of (a b : Nat) (ha : a < 16) (hb : b < 16) :
    (a, b) ∈ columnIndices := by
  simp only [columnIndices, List.mem_flatMap, List.mem_map, List.mem_range]
  exact ⟨a, ha, b, hb, rfl⟩

theorem bounds_of_mem_columnIndices (q : Nat × Nat) (h : q ∈ columnIndices) :
    q.1 < 16 ∧ q.2 < 16 := by
  simp only [columnIndices, List.mem_flatMap, List.mem_map, List.mem_range] at h
  obtain ⟨bz, hbz, bx, hbx, heq⟩ := h
  rw [← heq]
  exact ⟨hbz, hbx⟩

theorem length_slotOracleCalls_none (rx rz : Int) (cz cx : Nat) :
    (slotOracleCalls rx rz cz cx none).length = 256 := by
  simp only [slotOracleCalls, List.length_map]
  exact columnIndices_length

theorem nodup_slotOracleCalls_none (rx rz : Int) (cz cx : Nat) :
    (slotOracleCalls rx rz cz cx none).Nodup := by
  show (columnIndices.map fun q => seed_call_coords rx rz cx cz q.2 q.1).Nodup
  apply List.Nodup.map_on ?_ columnIndices_nodup
  intro q1 hq1 q2 hq2 heq
  obtain ⟨h11, h12⟩ := bounds_of_mem_columnIndices q1 hq1
  obtain ⟨h21, h22⟩ := bounds_of_mem_columnIndices q2 hq2
  simp only [seed_call_coords, Prod.mk.injEq] at heq
  obtain ⟨hx, hz⟩ := heq
  obtain ⟨a1, b1⟩ := q1
  obtain ⟨a2, b2⟩ := q2
  simp only at h11 h12 h21 h22 hx hz
  rw [Prod.mk.injEq]
  omega

theorem mem_slotOracleCalls_none (rx rz : Int) (cz cx bx bz : Nat)
    (hbz : bz < 16) (hbx : bx < 16) :
    seed_call_coords rx rz cx cz bx bz ∈ slotOracleCalls rx rz cz cx none :=
  List.mem_map.mpr ⟨(bz, bx), mem_columnIndices_of bz bx hbz hbx, rfl⟩

theorem regionOracleCalls_aux (rx rz : Int) (rg : RegionGrid) (l : List (Nat × Nat)) :
    (l.flatMap fun p => slotOracleCalls rx rz p.1 p.2 (rg p.1 p.2)).length =
      256 * ((l.map fun p => rg p.1 p.2).countP Option.isNone) := by
  induction l with
  | nil => rfl
  | cons p rest ih =>
    rw [List.flatMap_cons, List.length_append, ih, List.map_cons, List.countP_cons]
    cases hslot : rg p.1 p.2 with
    | none =>
      rw [length_slotOracleCalls_none]
      simp only [Option.isNone_none, if_true]
      omega
    | some g =>
      simp only [slotOracleCalls, List.length_nil, Option.isNone_some, Bool.false_eq_true,
        if_false]
      omega

/-- C6: stitching copies every present chunk slot verbatim with zero oracle
calls; an absent slot issues exactly 256 oracle calls, exactly one per block
column of the slot; over a whole region the number of oracle calls is exactly
256 times the number of absent slots, so the oracle is never invoked for a
column whose chunk has on-disk data. -/
theorem c6_stitch_oracle_calls (oracle : Coord → Biome) (rx rz : Int) (rg : RegionGrid)
    (cz cx bz bx : Nat) (g : ChunkGrid) :
    (rg cz cx = some g →
      biomes_for_region oracle rx rz rg cz cx = g ∧
      slotOracleCalls rx rz cz cx (rg cz cx) = []) ∧
    (rg cz cx = none →
      (slotOracleCalls rx rz cz cx (rg cz cx)).length = 256 ∧
      (slotOracleCalls rx rz cz cx (rg cz cx)).Nodup ∧
      (bz < 16 → bx < 16 →
        seed_call_coords rx rz cx cz bx bz ∈ slotOracleCalls rx rz cz cx (rg cz cx))) ∧
    (regionOracleCalls rx rz rg).length = 256 * absentSlotCount rg := by
  refine ⟨?_, ?_, regionOracleCalls_aux rx rz rg slotIndices⟩
  · intro h
    unfold biomes_for_region
    rw [h]
    exact ⟨rfl, rfl⟩
  · intro h
    rw [h]
    exact ⟨length_slotOracleCalls_none rx rz cz cx, nodup_slotOracleCalls_none rx rz cz cx,
      fun hbz hbx => mem_slotOracleCalls_none rx rz cz cx bx bz hbz hbx⟩

/-- A region grid with exactly one present chunk, at slot (0, 0). -/
def wGrid : RegionGrid := fun cz cx =>
  if cz = 0 && cx = 0 then some (fun _ _ => ⟨"Plains"⟩) else none

/-- Witness for c6_stitch_oracle_calls at the grid wGrid: the present slot
(0, 0) and the absent slot (0, 1). -/
theorem c6_stitch_oracle_calls_witness :
    (wGrid 0 0 = some (fun _ _ => ⟨"Plains"⟩) ∧
     biomes_for_region (fun _ => ⟨"Plains"⟩) 4 7 wGrid 0 0 = (fun _ _ => ⟨"Plains"⟩) ∧
     slotOracleCalls 4 7 0 0 (wGrid 0 0) = []) ∧
    (wGrid 0 1 = none ∧
     (slotOracleCalls 4 7 0 1 (wGrid 0 1)).length = 256 ∧
     (slotOracleCalls 4 7 0 1 (wGrid 0 1)).Nodup ∧
     (3 < 16 → 5 < 16 →
       seed_call_coords 4 7 1 0 5 3 ∈ slotOracleCalls 4 7 0 1 (wGrid 0 1))) ∧
    (regionOracleCalls 4 7 wGrid).length = 256 * absentSlotCount wGrid :=
  ⟨⟨rfl,
    (c6_stitch_oracle_calls (fun _ => ⟨"Plains"⟩) 4 7 wGrid 0 0 3 5 (fun _ _ => ⟨"Plains"⟩)).1
      rfl⟩,
   ⟨rfl,
    (c6_stitch_oracle_calls (fun _ => ⟨"Plains"⟩) 4 7 wGrid 0 1 3 5 (fun _ _ => ⟨"Plains"⟩)).2.1
      rfl⟩,
   (c6_stitch_oracle_calls (fun _ => ⟨"Plains"⟩) 4 7 wGrid 0 0 3 5
      (fun _ _ => ⟨"Plains"⟩)).2.2⟩

/-- C1 is violated by the code (code bug): when filling an absent slot, line
135 passes seed_biome the pair [(rz << 9) + (cz << 4) + bx, (rx << 9) +
(cx << 4) + bz], whose region and chunk components are swapped between the
axes relative to the block-offset components, while line 191 ranks the same
column at [(rx << 9) + (cx << 4) + bx, (rz << 9) + (cz << 4) + bz]. At
region (rx, rz) = (0, 1), chunk (cx, cz) = (0, 0), offset (bx, bz) = (0, 0),
the stitched value for the column ranked at (0, 512) is the oracle's answer
about (512, 0): a different column. -/
theorem c1_seed_coords_mismatch (oracle : Coord → Biome) :
    seed_call_coords 0 1 0 0 0 0 = (512, 0) ∧
    block_coords 0 1 0 0 0 0 = (0, 512) ∧
    seed_call_coords 0 1 0 0 0 0 ≠ block_coords 0 1 0 0 0 0 ∧
    biomes_for_region oracle 0 1 (fun _ _ => none) 0 0 0 0 = oracle (512, 0) := by
  refine ⟨by decide, by decide, by decide, ?_⟩
  show oracle (seed_call_coords 0 1 0 0 0 0) = oracle (512, 0)
  exact congrArg oracle (by decide)

/-! ## Region loading (src/main.rs lines 91-124)

The on-disk state is a function disk : Coord -> RegionOpenResult describing,
for each region coordinate, what mcanvil::Region::open and the subsequent
chunk iteration yield. -/

/-- The outcome of chunk_col.biomes() for one chunk column: a decoded grid
(the first element of the returned array, line 115), an unrecognized-biome
error carrying the offending ID (Err(Some(bid))), or no biome data yet
(Err(None)). -/
inductive BiomesResult where
  | ok (grid : ChunkGrid)
  | errId (bid : Int)
  | errNone

/-- One chunk column from iterating an mcanvil::Region: a chunk decode error,
or a decoded column with its absolute chunk position and biome outcome. -/
inductive ChunkColResult where
  | decodeErr
  | ok (xPos zPos : Int) (biomes : BiomesResult)

/-- The outcome of mcanvil::Region::open: the file is missing
(io::ErrorKind::NotFound), some other open failure, or an opened region
yielding its chunk columns in iteration order. -/
inductive RegionOpenResult where
  | notFound
  | openErr
  | opened (chunks : List ChunkColResult)

/-- The fatal load errors, each carrying the identifying data the source
interpolates into its error message (lines 95, 113, 117). -/
inductive LoadError where
  | regionFile (rx rz : Int)
  | chunkColumn (rx rz : Int)
  | unknownBiomeId (bid xPos zPos : Int)

/-- Source src/main.rs lines 91-97: region_uncached maps a missing file to
None (the whole region is unexplored) and any other open failure to a fatal
error naming the region coordinates. -/
def region_uncached (disk : Coord → RegionOpenResult) (rx rz : Int) :
    Except LoadError (Option (List ChunkColResult)) :=
  match disk (rx, rz) with
  | .notFound => .ok none
  | .openErr => .error (.regionFile rx rz)
  | .opened chunks => .ok (some chunks)

/-- The all-absent region grid: the default buffer of line 110. -/
def emptyRegionGrid : RegionGrid := fun _ _ => none

/-- Store a chunk grid at slot (cz, cx). -/
def setSlot (g : RegionGrid) (cz cx : Nat) (v : ChunkGrid) : RegionGrid :=
  fun z x => if z = cz ∧ x = cx then some v else g z x

/-- Source src/main.rs lines 112-121: processing one chunk column into the
buffer. A chunk decode error is fatal naming the region (line 113); biome ID
-127 means invalid/regenerate and leaves the slot absent (line 116); any
other unrecognized biome ID is fatal naming the chunk position (line 117);
absent biome data leaves the slot absent (line 118); a decoded grid is
stored at [z_pos as usize % 32][x_pos as usize % 32] (line 120, where the
usize cast followed by % 32 equals emod 32 for negative positions too). -/
def applyChunk (rx rz : Int) (g : RegionGrid) :
    ChunkColResult → Except LoadError RegionGrid
  | .decodeErr => .error (.chunkColumn rx rz)
  | .ok xPos zPos biomes =>
    match biomes with
    | .ok grid => .ok (setSlot g (zPos.emod 32).toNat (xPos.emod 32).toNat grid)
    | .errId bid =>
      if bid = -127 then .ok g else .error (.unknownBiomeId bid xPos zPos)
    | .errNone => .ok g

/-- Source src/main.rs lines 109-124: region_biomes. -/
def region_biomes (disk : Coord → RegionOpenResult) (rx rz : Int) :
    Except LoadError RegionGrid :=
  match region_uncached disk rx rz with
  | .error e => .error e
  | .ok none => .ok emptyRegionGrid
  | .ok (some chunks) => chunks.foldlM (applyChunk rx rz) emptyRegionGrid

/-- C7: region-load outcome classification. A missing region file yields the
all-absent grid, not an error; a chunk reporting the invalid/regenerate
sentinel (biome ID -127) or biomes-not-yet-generated leaves its slot absent,
not an error; any other unrecognized biome ID is a fatal error naming the
chunk position, a chunk decode error is a fatal error naming the region, and
a failed region-file open (other than not-found) is a fatal error naming the
region; a decoded chunk is stored at its slot. -/
theorem c7_load_classification (disk : Coord → RegionOpenResult) (rx rz : Int)
    (g : RegionGrid) (xPos zPos bid : Int) (chunks : List ChunkColResult)
    (grid : ChunkGrid) :
    (disk (rx, rz) = .notFound → region_biomes disk rx rz = .ok emptyRegionGrid) ∧
    (applyChunk rx rz g (.ok xPos zPos (.errId (-127))) = .ok g) ∧
    (applyChunk rx rz g (.ok xPos zPos .errNone) = .ok g) ∧
    (bid ≠ -127 →
      applyChunk rx rz g (.ok xPos zPos (.errId bid)) =
        .error (.unknownBiomeId bid xPos zPos)) ∧
    (applyChunk rx rz g .decodeErr = .error (.chunkColumn rx rz)) ∧
    (disk (rx, rz) = .openErr → region_biomes disk rx rz = .error (.regionFile rx rz)) ∧
    (disk (rx, rz) = .opened chunks →
      region_biomes disk rx rz = chunks.foldlM (applyChunk rx rz) emptyRegionGrid) ∧
    (applyChunk rx rz g (.ok xPos zPos (.ok grid)) =
      .ok (setSlot g (zPos.emod 32).toNat (xPos.emod 32).toNat grid)) := by
  refine ⟨?_, ?_, rfl, ?_, rfl, ?_, ?_, rfl⟩
  · intro h
    unfold region_biomes region_uncached
    rw [h]
  · show (if (-127 : Int) = -127 then (Except.ok g : Except LoadError RegionGrid)
        else .error (.unknownBiomeId (-127) xPos zPos)) = Except.ok g
    rw [if_pos rfl]
  · intro h
    show (if bid = -127 then (Except.ok g : Except LoadError RegionGrid)
        else .error (.unknownBiomeId bid xPos zPos)) =
      Except.error (.unknownBiomeId bid xPos zPos)
    rw [if_neg h]
  · intro h
    unfold region_biomes region_uncached
    rw [h]
  · intro h
    unfold region_biomes region_uncached
    rw [h]

def diskMissing : Coord → RegionOpenResult := fun _ => .notFound

def diskBad : Coord → RegionOpenResult := fun _ => .openErr

def diskOne : Coord → RegionOpenResult := fun _ => .opened [.ok 3 4 .errNone]

/-- Witness for c7_load_classification at concrete disks and chunk data. -/
theorem c7_load_classification_witness :
    (diskMissing (2, 5) = .notFound ∧
     region_biomes diskMissing 2 5 = .ok emptyRegionGrid) ∧
    ((5 : Int) ≠ -127 ∧
     applyChunk 2 5 emptyRegionGrid (.ok 7 9 (.errId 5)) =
       .error (.unknownBiomeId 5 7 9)) ∧
    (diskBad (2, 5) = .openErr ∧
     region_biomes diskBad 2 5 = .error (.regionFile 2 5)) ∧
    (diskOne (2, 5) = .opened [.ok 3 4 .errNone] ∧
     region_biomes diskOne 2 5 =
       [ChunkColResult.ok 3 4 .errNone].foldlM (applyChunk 2 5) emptyRegionGrid) :=
  ⟨⟨rfl,
    (c7_load_classification diskMissing 2 5 emptyRegionGrid 7 9 5 []
      (fun _ _ => ⟨"Plains"⟩)).1 rfl⟩,
   ⟨by decide,
    (c7_load_classification diskMissing 2 5 emptyRegionGrid 7 9 5 []
      (fun _ _ => ⟨"Plains"⟩)).2.2.2.1 (by decide)⟩,
   ⟨rfl,
    (c7_load_classification diskBad 2 5 emptyRegionGrid 7 9 5 []
      (fun _ _ => ⟨"Plains"⟩)).2.2.2.2.2.1 rfl⟩,
   ⟨rfl,
    (c7_load_classification diskOne 2 5 emptyRegionGrid 7 9 5 [.ok 3 4 .errNone]
      (fun _ _ => ⟨"Plains"⟩)).2.2.2.2.2.2.1 rfl⟩⟩

/-! ## Final deterministic listing (src/main.rs lines 178-181) -/

/-- Source src/main.rs line 178: the sort key of sorted_by_key — the tuple
(taxicab distance to the anchor, z, x, biome.to_string()). -/
def listingKey (anchor : Coord) (e : Biome × Coord) : Nat × Int × Int × String :=
  (taxicab_distance anchor e.2, e.2.2, e.2.1, e.1.name)

/-- The key tuple under the lexicographic order (the Ord of a Rust tuple). -/
def lexKey (k : Nat × Int × Int × String) : Lex (Nat × Lex (Int × Lex (Int × String))) :=
  toLex (k.1, toLex (k.2.1, toLex (k.2.2.1, k.2.2.2)))

/-- Entry comparison by key: lexicographic on (distance, z, x, name), the Ord
of the Rust key tuple. -/
def keyLe (anchor : Coord) (a b : Biome × Coord) : Prop :=
  lexKey (listingKey anchor a) ≤ lexKey (listingKey anchor b)

instance keyLeDecidable (anchor : Coord) : DecidableRel (keyLe anchor) := fun a b => by
  unfold keyLe
  infer_instance

/-- Source src/main.rs lines 178-181: the final listing of the found map,
sorted by the key of line 178 (sorted_by_key; the sorting algorithm itself is
irrelevant to the result because distinct entries always have distinct keys
in a map sorted here, and any stable sort of the same key agrees). -/
def listing (anchor : Coord) (found : NearestMap) : NearestMap :=
  List.insertionSort (keyLe anchor) found

/-- C8: the final listing is sorted by the key (distance to anchor ascending,
then z ascending, then x ascending, then biome name ascending) — it is
pairwise ordered under that lexicographic key and is a permutation of the
found map's entries; and in the claim's tie example (anchor (4, 109): both
entries at distance 100, equal z = 10), the x = 3 entry is listed before the
x = 5 entry. -/
theorem c8_listing_sorted (anchor : Coord) (found : NearestMap) :
    (listing anchor found).Pairwise (keyLe anchor) ∧
    (listing anchor found).Perm found ∧
    listing (4, 109) [(⟨"Desert"⟩, (5, 10)), (⟨"Plains"⟩, (3, 10))] =
      [(⟨"Plains"⟩, (3, 10)), (⟨"Desert"⟩, (5, 10))] := by
  haveI : IsTotal (Biome × Coord) (keyLe anchor) := ⟨fun a b => le_total _ _⟩
  haveI : IsTrans (Biome × Coord) (keyLe anchor) := ⟨fun a b c => le_trans⟩
  exact ⟨List.sorted_insertionSort (keyLe anchor) found,
    List.perm_insertionSort (keyLe anchor) found, by decide⟩

end Abr
